import Mathlib

/-!
Verification of the simdjson on-demand `parser` interface
(src/include/simdjson/generic/ondemand/parser.h).

The repository ships only the header: declarations, constants, deleted
overloads, and contract documentation. Constants and overload sets are
embedded directly from the header; the behaviour of `iterate` and
`iterate_many` (implemented outside this repository) is modelled from the
specification, with each such definition marked `Modelled from the spec`.
-/

namespace Simdjson

/-- Error codes of the simdjson library that the parser interface documents
(simdjson/error.h is not part of this repository; the names are those the
header refers to). Success is represented by `Except.ok`, so no SUCCESS
member is needed. -/
inductive error_code where
  | MEMALLOC
  | EMPTY
  | UTF8_ERROR
  | UNESCAPED_CHARS
  | UNCLOSED_STRING
  | CAPACITY
  | INCORRECT_TYPE
  | TAPE_ERROR
  | DEPTH_ERROR
  | OUT_OF_BOUNDS
  | NUMBER_ERROR
  deriving DecidableEq, Repr

/-- The default batch size for document_stream instances for this On Demand
kernel, from the header: `static constexpr size_t DEFAULT_BATCH_SIZE = 1000000;`. -/
def DEFAULT_BATCH_SIZE : Nat := 1000000

/-- Minimal accepted batch size, from the header:
`static constexpr size_t MINIMAL_BATCH_SIZE = 32;`. -/
def MINIMAL_BATCH_SIZE : Nat := 32

/-- Modelled from the spec: SIMDJSON_MAXSIZE_BYTES is the library-wide
maximum document size; it is defined outside this repository (the header
uses it as the default argument of the parser constructor). Its exact
value is irrelevant to the claims; the library value is 4 GB - 1. -/
def SIMDJSON_MAXSIZE_BYTES : Nat := 4294967295

/-- Modelled from the spec: DEFAULT_MAX_DEPTH is defined outside this
repository; the spec calls it a fixed default constant for maximum
nesting. The library value is 1024. -/
def DEFAULT_MAX_DEPTH : Nat := 1024

/-- The parser (the resource manager of the spec). The header declares
members `_capacity{0}`, `_max_capacity`, `_max_depth{DEFAULT_MAX_DEPTH}`
and, under SIMDJSON_THREADS_ENABLED, `bool threaded{true}`. -/
structure Parser where
  capacity : Nat
  maxCapacity : Nat
  maxDepth : Nat
  threaded : Bool
  deriving DecidableEq, Repr

/-- Modelled from the spec: the parser constructor body is outside this
repository. The header declares
`explicit parser(size_t max_capacity = SIMDJSON_MAXSIZE_BYTES)` and
documents that the new parser has zero capacity; the member initializers
`_capacity{0}`, `_max_depth{DEFAULT_MAX_DEPTH}` and `threaded{true}` are
in the header, and the constructor stores its argument as the maximum
capacity. -/
def Parser.new (maxCap : Nat := SIMDJSON_MAXSIZE_BYTES) : Parser :=
  { capacity := 0, maxCapacity := maxCap, maxDepth := DEFAULT_MAX_DEPTH, threaded := true }

/-! ### Overload sets of `iterate` and `iterate_many`

The header declares a fixed set of overloads, some deleted. We embed each
overload as its parameter type, its passing convention, and whether it is
deleted, and model C++ overload resolution for a single-argument call with
an rvalue (temporary) argument of exactly one of these types: every
passing convention binds an rvalue (a const lvalue reference binds
temporaries too), and among candidates of the same parameter type an
rvalue reference is preferred, then a const rvalue reference, then the
rest. No two overloads of the same parameter type in the header share a
passing convention, so this resolution is unambiguous. -/

/-- Parameter types appearing in the iterate / iterate_many overload sets. -/
inductive ArgType where
  | stdString
  | paddedString
  | paddedStringView
  | stringView
  | charPtrLen
  | uint8PtrLen
  | charPtr
  | charPtrLenCap
  | uint8PtrLenCap
  | stringViewCap
  | resultPaddedString
  | resultPaddedStringView
  deriving DecidableEq, Repr

/-- Passing conventions of the overload parameters. -/
inductive PassBy where
  | byValue
  | constLRef
  | rvalueRef
  | constRvalueRef
  deriving DecidableEq, Repr

/-- One overload of a parser member function. -/
structure Overload where
  ty : ArgType
  pass : PassBy
  deleted : Bool
  deriving DecidableEq, Repr

/-- The overload set of `parser::iterate`, read off the header in order of
declaration (lines 87-144). -/
def iterateOverloads : List Overload :=
  [ { ty := .charPtrLen, pass := .byValue, deleted := false },
    { ty := .stringView, pass := .byValue, deleted := false },
    { ty := .stdString, pass := .constLRef, deleted := false },
    { ty := .paddedStringView, pass := .byValue, deleted := false },
    { ty := .paddedString, pass := .constLRef, deleted := false },
    { ty := .charPtrLenCap, pass := .byValue, deleted := false },
    { ty := .uint8PtrLenCap, pass := .byValue, deleted := false },
    { ty := .stringViewCap, pass := .byValue, deleted := false },
    { ty := .resultPaddedString, pass := .constLRef, deleted := false },
    { ty := .resultPaddedStringView, pass := .constLRef, deleted := false },
    { ty := .paddedString, pass := .rvalueRef, deleted := true },
    { ty := .stdString, pass := .rvalueRef, deleted := true } ]

/-- The overload set of `parser::iterate_many`, read off the header in
order of declaration (lines 208-220). -/
def iterateManyOverloads : List Overload :=
  [ { ty := .stringView, pass := .byValue, deleted := false },
    { ty := .uint8PtrLen, pass := .byValue, deleted := false },
    { ty := .charPtrLen, pass := .byValue, deleted := false },
    { ty := .stdString, pass := .constLRef, deleted := false },
    { ty := .stdString, pass := .constRvalueRef, deleted := true },
    { ty := .paddedString, pass := .constLRef, deleted := false },
    { ty := .paddedString, pass := .constRvalueRef, deleted := true },
    { ty := .charPtr, pass := .byValue, deleted := true } ]

/-- Preference rank of a passing convention when the argument is an
rvalue: an rvalue reference (or by value, which never coexists with a
reference of the same type here) beats a const rvalue reference, which
beats a const lvalue reference. -/
def rvalueRank : PassBy → Nat
  | .rvalueRef => 3
  | .byValue => 3
  | .constRvalueRef => 2
  | .constLRef => 1

/-- Overload resolution for a call with a single rvalue argument of type
`t`: among the overloads whose parameter type is `t` (all of which can
bind an rvalue), pick the one of highest rank. -/
def resolveRvalue (ovs : List Overload) (t : ArgType) : Option Overload :=
  (ovs.filter (fun o => o.ty = t)).foldl
    (fun best o => match best with
      | none => some o
      | some b => if rvalueRank b.pass < rvalueRank o.pass then some o else some b)
    none

/-- Whether a call passing a temporary (rvalue) of type `t` is well formed:
resolution must select a non-deleted overload. -/
def rvalueCallOk (ovs : List Overload) (t : ArgType) : Bool :=
  match resolveRvalue ovs t with
  | some o => !o.deleted
  | none => false

/-! ### The document stream pipeline

The implementation of `iterate_many` (document_stream) is outside this
repository; it is modelled from the spec. The spec treats the structural
indexer as an external collaborator, a pure function from bytes to a
token-offset sequence plus error; at the pipeline level the input buffer
is therefore represented by its segmentation into documents, each carrying
its byte size within the buffer and the per-document parse outcome the
indexer and iterator would produce for it. -/

/-- One document region of a multi-document input buffer: its byte length
within the buffer and the per-document result of parsing it (the outcome
of the external structural indexer plus on-demand iteration, opaque at
the pipeline level). -/
structure RawDoc where
  size : Nat
  result : Except error_code Unit
  deriving Repr

/-- Modelled from the spec: batch formation of the document_stream. The
pipeline cuts the input into batches of at most `bs` bytes, choosing each
batch boundary to fall after a complete document; a document larger than
`bs` cannot fit in any batch and becomes a batch of its own, reported as
a per-document failure while the pipeline resynchronizes at the next
document boundary. `remaining` is the unused room of the current batch
and `acc` its documents in reverse order. -/
def batchingAux (bs : Nat) : List RawDoc → Nat → List RawDoc → List (List RawDoc)
  | [], _, acc => if acc.isEmpty then [] else [acc.reverse]
  | d :: rest, remaining, acc =>
    if d.size ≤ remaining then
      batchingAux bs rest (remaining - d.size) (d :: acc)
    else if d.size ≤ bs then
      acc.reverse :: batchingAux bs rest (bs - d.size) [d]
    else
      (if acc.isEmpty then [] else [acc.reverse]) ++ [d] :: batchingAux bs rest bs []

/-- Modelled from the spec: cut a document sequence into batches of total
size at most `bs`, never splitting a document across a batch boundary. -/
def batching (docs : List RawDoc) (bs : Nat) : List (List RawDoc) :=
  batchingAux bs docs bs []

/-- Modelled from the spec: the result the stream reports for one
document under batch size `bs`. A document that exceeds the batch size
cannot be indexed within any batch window and yields a CAPACITY error at
its own position, scoped to that document; any other document yields the
outcome of parsing it. -/
def perDocResult (bs : Nat) (d : RawDoc) : Except error_code Unit :=
  if bs < d.size then Except.error .CAPACITY else d.result

/-- Modelled from the spec: run the structural indexer over one batch and
parse its documents in order, yielding the per-document results. -/
def indexBatch (bs : Nat) (b : List RawDoc) : List (Except error_code Unit) :=
  b.map (perDocResult bs)

/-- Modelled from the spec: the synchronous pipeline, with the lookahead
worker disabled. Each batch is indexed only when the consumer reaches it,
and its document results are yielded in order. -/
def seqRun (bs : Nat) : List (List RawDoc) → List (Except error_code Unit)
  | [] => []
  | b :: rest => indexBatch bs b ++ seqRun bs rest

/-- Modelled from the spec: the pipeline with the lookahead worker
enabled, as the bounded single-slot channel of the spec. `slot` holds the
index result of the batch the worker has finished ahead of the consumer;
at each step the consumer adopts the slot content while the worker indexes
the next batch, so at most one lookahead result is in flight. -/
def lookRun (bs : Nat) : Option (List (Except error_code Unit)) → List (List RawDoc) →
    List (Except error_code Unit)
  | none, [] => []
  | none, b :: rest => lookRun bs (some (indexBatch bs b)) rest
  | some r, [] => r
  | some r, b :: rest => r ++ lookRun bs (some (indexBatch bs b)) rest

/-- Modelled from the spec: the complete output of a document stream, a
per-document result for every document of the input in order, produced
with or without the lookahead worker according to `threaded`. -/
def streamOutput (threaded : Bool) (docs : List RawDoc) (bs : Nat) :
    List (Except error_code Unit) :=
  if threaded then lookRun bs none (batching docs bs)
  else seqRun bs (batching docs bs)

/-- The batch size actually used by a call to iterate_many that passed
`bs`: the requested size, raised to the minimal floor MINIMAL_BATCH_SIZE
so that adversarial sizes of 0 or 1 cannot be configured. -/
def effectiveBatchSize (bs : Nat) : Nat := max bs MINIMAL_BATCH_SIZE

/-- Modelled from the spec: `parser::iterate_many`. The batch size is
raised to the minimal floor; an empty input yields a stream of zero
documents rather than an error; otherwise, if the parser capacity is
below the batch size the parser must grow: growing beyond max_capacity is
a CAPACITY error, and a failed allocation (`allocOk` false) is a MEMALLOC
error. On success the stream yields the per-document results. The default
argument DEFAULT_BATCH_SIZE is in the header. -/
def iterate_many (p : Parser) (allocOk : Bool) (docs : List RawDoc)
    (bs : Nat := DEFAULT_BATCH_SIZE) : Except error_code (List (Except error_code Unit)) :=
  if docs.isEmpty then .ok []
  else if p.capacity < effectiveBatchSize bs then
    if p.maxCapacity < effectiveBatchSize bs then .error .CAPACITY
    else if allocOk then .ok (streamOutput p.threaded docs (effectiveBatchSize bs))
    else .error .MEMALLOC
  else .ok (streamOutput p.threaded docs (effectiveBatchSize bs))

/-! ### Single-document iteration

The implementation of `parser::iterate` (the stage-1 structural indexer
and the on-demand iterator) is outside this repository; both are modelled
from the spec over byte sequences (each byte a Nat below 256). -/

/-- Whether a byte is JSON whitespace (space, tab, line feed, carriage
return). -/
def isWs (b : Nat) : Bool := b = 0x20 || b = 0x09 || b = 0x0A || b = 0x0D

/-- Whether a byte is a UTF-8 continuation byte. -/
def isCont (b : Nat) : Bool := 0x80 ≤ b && b ≤ 0xBF

/-- Modelled from the spec: the UTF-8 validation the external structural
indexer performs over the whole input during indexing (RFC 3629: no
overlong forms, no surrogates, no code points above U+10FFFF). -/
def validUtf8 : List Nat → Bool
  | [] => true
  | b :: rest =>
    if b ≤ 0x7F then validUtf8 rest
    else if 0xC2 ≤ b && b ≤ 0xDF then
      match rest with
      | c :: r => isCont c && validUtf8 r
      | [] => false
    else if b = 0xE0 then
      match rest with
      | c :: d :: r => (0xA0 ≤ c && c ≤ 0xBF) && isCont d && validUtf8 r
      | _ => false
    else if (0xE1 ≤ b && b ≤ 0xEC) || (0xEE ≤ b && b ≤ 0xEF) then
      match rest with
      | c :: d :: r => isCont c && isCont d && validUtf8 r
      | _ => false
    else if b = 0xED then
      match rest with
      | c :: d :: r => (0x80 ≤ c && c ≤ 0x9F) && isCont d && validUtf8 r
      | _ => false
    else if b = 0xF0 then
      match rest with
      | c :: d :: e :: r => (0x90 ≤ c && c ≤ 0xBF) && isCont d && isCont e && validUtf8 r
      | _ => false
    else if 0xF1 ≤ b && b ≤ 0xF3 then
      match rest with
      | c :: d :: e :: r => isCont c && isCont d && isCont e && validUtf8 r
      | _ => false
    else if b = 0xF4 then
      match rest with
      | c :: d :: e :: r => (0x80 ≤ c && c ≤ 0x8F) && isCont d && isCont e && validUtf8 r
      | _ => false
    else false

/-- Whether a byte opens or closes a JSON structural region; the stage-1
index records the positions of these bytes and of string quotes. -/
def isStructural (b : Nat) : Bool :=
  b = 0x7B || b = 0x7D || b = 0x5B || b = 0x5D || b = 0x3A || b = 0x2C || b = 0x22

/-- Modelled from the spec: the token-offset sequence the structural
indexer produces, the ordered byte offsets of structural characters. -/
def structuralIndex (bytes : List Nat) : List Nat :=
  (List.range bytes.length).filter (fun i => (bytes.get? i).elim false isStructural)

/-- A document returned by a successful `iterate`: a borrowed view of the
input bytes together with the structural index computed for exactly this
input. Navigation and validation happen lazily against this index. -/
structure Document where
  bytes : List Nat
  index : List Nat
  deriving DecidableEq, Repr

/-- Modelled from the spec: `parser::iterate`. Allocation is topped up
first (a failed allocation is MEMALLOC); an input that is empty or all
whitespace is EMPTY; indexing validates UTF-8 over the whole input
(UTF8_ERROR). Grammar and string validation are not performed here: the
call that begins iteration does not parse and validate the whole
document, so a malformed region is only detected when traversal visits
it. -/
def iterate (allocOk : Bool) (bytes : List Nat) : Except error_code Document :=
  if !allocOk then .error .MEMALLOC
  else if bytes.all isWs then .error .EMPTY
  else if !validUtf8 bytes then .error .UTF8_ERROR
  else .ok { bytes := bytes, index := structuralIndex bytes }

/-- Modelled from the spec: scan the body of a string, starting just
after its opening quote. Reaching an unescaped closing quote yields the
raw body; a raw control character is UNESCAPED_CHARS; running off the end
of the buffer without a closing quote is UNCLOSED_STRING. -/
def scanString : List Nat → Except error_code (List Nat)
  | [] => .error .UNCLOSED_STRING
  | b :: rest =>
    if b = 0x22 then .ok []
    else if b = 0x5C then
      match rest with
      | [] => .error .UNCLOSED_STRING
      | e :: r => (scanString r).map (fun s => b :: e :: s)
    else if b < 0x20 then .error .UNESCAPED_CHARS
    else (scanString rest).map (fun s => b :: s)

/-- Modelled from the spec: materialize the string whose opening quote
sits at byte offset `pos`; the traversal reaches the string region only
through this call. -/
def readStringAt (bytes : List Nat) (pos : Nat) : Except error_code (List Nat) :=
  match bytes.get? pos with
  | some b => if b = 0x22 then scanString (bytes.drop (pos + 1)) else .error .INCORRECT_TYPE
  | none => .error .OUT_OF_BOUNDS

/-- Structural characterization of a truncated string body: scanning it
never meets an unescaped closing quote or a raw control character before
the end of the buffer. -/
def noClose : List Nat → Bool
  | [] => true
  | b :: rest =>
    if b = 0x22 then false
    else if b = 0x5C then
      match rest with
      | [] => true
      | _ :: r => noClose r
    else if b < 0x20 then false
    else noClose rest

/-- Structural characterization of a well-formed string body: scanning it
meets an unescaped closing quote before the end, with no raw control
character before it. -/
def cleanClose : List Nat → Bool
  | [] => false
  | b :: rest =>
    if b = 0x22 then true
    else if b = 0x5C then
      match rest with
      | [] => false
      | _ :: r => cleanClose r
    else if b < 0x20 then false
    else cleanClose rest

/-- The string starting at offset `pos` is truncated: an opening quote
whose body runs to the end of the buffer unclosed. -/
def truncatedStringAt (bytes : List Nat) (pos : Nat) : Prop :=
  bytes.get? pos = some 0x22 ∧ noClose (bytes.drop (pos + 1)) = true

/-- The string starting at offset `pos` is well formed: an opening quote
whose body closes cleanly. -/
def wellFormedStringAt (bytes : List Nat) (pos : Nat) : Prop :=
  bytes.get? pos = some 0x22 ∧ cleanClose (bytes.drop (pos + 1)) = true

/-- A traversal, abstracted to the sequence of string positions it visits
and materializes; running it produces one result per visited position. -/
def runTraversal (bytes : List Nat) (ps : List Nat) : List (Except error_code (List Nat)) :=
  ps.map (readStringAt bytes)

/-! ### The single-live-document lease

The header documents that only one iteration at a time can happen per
parser and that any document must be destroyed before iterate is called
again. The spec directs that acquiring a second lease while one is
outstanding be a reported error. -/

/-- Operations a caller can perform against one parser: begin an
iteration (which hands out a live document) or destroy the live
document. -/
inductive POp where
  | beginIterate
  | destroyDoc
  deriving DecidableEq, Repr

/-- The lease state of a parser: how many documents handed out by iterate
are currently alive. -/
structure LeaseState where
  live : Nat
  deriving DecidableEq, Repr

/-- Modelled from the spec: the exclusive lease discipline. Beginning an
iteration while a document is alive is a detected programming error
(reported, no second document is created); destroying with nothing alive
is likewise rejected. The Bool records whether the operation was rejected
as a programming error. -/
def leaseStep (s : LeaseState) : POp → LeaseState × Bool
  | .beginIterate => if s.live = 0 then ({ live := 1 }, false) else (s, true)
  | .destroyDoc => if s.live = 0 then (s, true) else ({ live := s.live - 1 }, false)

/-- Run a sequence of operations from a lease state. -/
def runOps (s : LeaseState) : List POp → LeaseState
  | [] => s
  | op :: rest => runOps (leaseStep s op).1 rest

/-! ### Helper lemmas -/

/-- Running the lookahead pipeline with a full slot yields the slot
content followed by the synchronous run of the remaining batches. -/
theorem lookRun_some (bs : Nat) :
    ∀ (l : List (List RawDoc)) (r : List (Except error_code Unit)),
      lookRun bs (some r) l = r ++ seqRun bs l := by
  intro l
  induction l with
  | nil => intro r; simp [lookRun, seqRun]
  | cons b rest ih => intro r; simp [lookRun, seqRun, ih]

/-- The lookahead pipeline and the synchronous pipeline produce the same
result sequence over the same batches. -/
theorem lookRun_none_eq_seqRun (bs : Nat) :
    ∀ l : List (List RawDoc), lookRun bs none l = seqRun bs l := by
  intro l
  cases l with
  | nil => rfl
  | cons b rest => simp [lookRun, seqRun, lookRun_some]

/-- Batching partitions the input documents: concatenating the batches
restores the document sequence exactly, in order. -/
theorem batchingAux_flatten (bs : Nat) :
    ∀ (docs : List RawDoc) (remaining : Nat) (acc : List RawDoc),
      (batchingAux bs docs remaining acc).flatten = acc.reverse ++ docs := by
  intro docs
  induction docs with
  | nil => intro remaining acc; cases acc <;> simp [batchingAux]
  | cons d rest ih =>
    intro remaining acc
    simp only [batchingAux]
    split
    · rw [ih]; simp
    · split
      · simp [ih]
      · cases acc <;> simp [ih]

/-- The synchronous pipeline maps the per-document outcome over the
concatenation of its batches. -/
theorem seqRun_eq_map (bs : Nat) :
    ∀ l : List (List RawDoc), seqRun bs l = l.flatten.map (perDocResult bs) := by
  intro l
  induction l with
  | nil => rfl
  | cons b rest ih => simp [seqRun, indexBatch, ih]

/-- The stream output, threaded or not, is the per-document outcome of
every input document in input order. -/
theorem streamOutput_eq_map (th : Bool) (docs : List RawDoc) (bs : Nat) :
    streamOutput th docs bs = docs.map (perDocResult bs) := by
  cases th <;>
    simp [streamOutput, lookRun_none_eq_seqRun, seqRun_eq_map, batching, batchingAux_flatten]

/-- A single lease step keeps the live-document count at most one. -/
theorem leaseStep_live_le (s : LeaseState) (op : POp) (h : s.live ≤ 1) :
    ((leaseStep s op).1).live ≤ 1 := by
  cases op <;> simp only [leaseStep] <;> split <;> simp <;> omega

/-- Any operation sequence keeps the live-document count at most one. -/
theorem runOps_live_le (ops : List POp) :
    ∀ s : LeaseState, s.live ≤ 1 → (runOps s ops).live ≤ 1 := by
  induction ops with
  | nil => intro s h; exact h
  | cons op rest ih => intro s h; exact ih _ (leaseStep_live_le s op h)

/-- Scanning a truncated string body reports UNCLOSED_STRING. -/
theorem noClose_scanString :
    ∀ l : List Nat, noClose l = true → scanString l = .error .UNCLOSED_STRING := by
  intro l
  induction l using scanString.induct with
  | case1 => intro _; rfl
  | case2 r => intro h; rw [noClose.eq_def] at h; simp at h
  | case3 _ => intro _; rfl
  | case4 e r hne ih =>
    intro h
    rw [noClose.eq_def] at h
    simp at h
    rw [scanString.eq_def]
    simp [ih h, Except.map]
  | case5 e r h1 h2 h3 =>
    intro h
    rw [noClose.eq_def] at h
    simp [h1, h2, h3] at h
  | case6 e r h1 h2 h3 ih =>
    intro h
    rw [noClose.eq_def] at h
    simp [h1, h2, h3] at h
    rw [scanString.eq_def]
    simp [h1, h2, h3, ih h, Except.map]

/-- Scanning a well-formed string body succeeds. -/
theorem cleanClose_scanString :
    ∀ l : List Nat, cleanClose l = true → ∃ s, scanString l = .ok s := by
  intro l
  induction l using scanString.induct with
  | case1 => intro h; rw [cleanClose.eq_def] at h; simp at h
  | case2 r => intro _; exact ⟨[], by rw [scanString.eq_def]; simp⟩
  | case3 _ => intro h; rw [cleanClose.eq_def] at h; simp at h
  | case4 e r hne ih =>
    intro h
    rw [cleanClose.eq_def] at h
    simp at h
    obtain ⟨s, hs⟩ := ih h
    refine ⟨0x5C :: e :: s, ?_⟩
    rw [scanString.eq_def]
    simp [hs, Except.map]
  | case5 e r h1 h2 h3 =>
    intro h
    rw [cleanClose.eq_def] at h
    simp [h1, h2, h3] at h
  | case6 e r h1 h2 h3 ih =>
    intro h
    rw [cleanClose.eq_def] at h
    simp [h1, h2, h3] at h
    obtain ⟨s, hs⟩ := ih h
    refine ⟨e :: s, ?_⟩
    rw [scanString.eq_def]
    simp [h1, h2, h3, hs, Except.map]

/-- Every batch respects the batch size: its documents total at most `bs`
bytes, except for a document too large for any batch, which stands alone
in a batch of its own. -/
theorem batchingAux_size_bound (bs : Nat) :
    ∀ (docs : List RawDoc) (remaining : Nat) (acc : List RawDoc),
      (acc.map RawDoc.size).sum + remaining ≤ bs →
      ∀ b ∈ batchingAux bs docs remaining acc,
        (b.map RawDoc.size).sum ≤ bs ∨ ∃ d, b = [d] ∧ bs < d.size := by
  intro docs
  induction docs with
  | nil =>
    intro remaining acc hinv b hb
    rw [batchingAux] at hb
    by_cases hacc : acc.isEmpty
    · simp [hacc] at hb
    · simp [hacc] at hb
      subst hb
      left
      simp [List.sum_reverse]
      omega
  | cons d rest ih =>
    intro remaining acc hinv b hb
    rw [batchingAux] at hb
    split at hb
    · exact ih (remaining - d.size) (d :: acc) (by simp; omega) b hb
    · split at hb
      · simp at hb
        rcases hb with hb | hb
        · subst hb; left; simp [List.sum_reverse]; omega
        · exact ih (bs - d.size) [d] (by simp; omega) b hb
      · simp at hb
        rcases hb with hb | hb | hb
        · rcases hb with ⟨-, hb⟩; subst hb; left; simp [List.sum_reverse]; omega
        · subst hb; right; exact ⟨d, rfl, by omega⟩
        · exact ih bs [] (by simp) b hb

/-- On success, iterate_many yields exactly one result per input
document, in input order, each the per-document outcome under the
effective batch size. -/
theorem iterate_many_ok (p : Parser) (allocOk : Bool) (docs : List RawDoc) (bs : Nat)
    (out : List (Except error_code Unit)) (h : iterate_many p allocOk docs bs = .ok out) :
    out = docs.map (perDocResult (effectiveBatchSize bs)) := by
  rw [iterate_many] at h
  split at h
  · rename_i hemp
    rw [List.isEmpty_iff] at hemp
    subst hemp
    simp at h
    simp [h]
  · split at h
    · split at h
      · simp at h
      · split at h
        · rw [streamOutput_eq_map] at h
          exact (Except.ok.injEq _ _ ▸ h).symm
        · simp at h
    · rw [streamOutput_eq_map] at h
      exact (Except.ok.injEq _ _ ▸ h).symm

/-! ### The claims -/

/-- C1: for every parser, at most one document iteration is live at a
time: along any sequence of begin-iteration and destroy-document
operations starting from a fresh parser, the number of live documents
never exceeds one, and beginning a new iteration while a document is
alive is a detected programming error that leaves the state unchanged
and hands out no second document. -/
theorem claim_C1_single_live_iteration :
    (∀ ops : List POp, (runOps { live := 0 } ops).live ≤ 1) ∧
    (∀ s : LeaseState, s.live = 1 →
      (leaseStep s .beginIterate).2 = true ∧ (leaseStep s .beginIterate).1 = s) := by
  constructor
  · intro ops
    exact runOps_live_le ops { live := 0 } (by simp)
  · intro s h
    constructor <;> simp [leaseStep, h]

/-- Witness for C1 at a concrete operation sequence and state. -/
theorem claim_C1_witness :
    (runOps { live := 0 } [POp.beginIterate, POp.beginIterate]).live ≤ 1 ∧
    (leaseStep { live := 1 } POp.beginIterate).2 = true :=
  ⟨claim_C1_single_live_iteration.1 [POp.beginIterate, POp.beginIterate],
    (claim_C1_single_live_iteration.2 { live := 1 } rfl).1⟩

/-- C2: for every input, iterate returns either a document or exactly one
error among MEMALLOC, EMPTY, UTF8_ERROR, UNESCAPED_CHARS and
UNCLOSED_STRING; and whenever allocation succeeds and the input is
entirely whitespace, iterate returns the EMPTY error and no document. -/
theorem claim_C2_iterate_error_set (bytes : List Nat) (allocOk : Bool) :
    ((∃ d, iterate allocOk bytes = .ok d) ∨
      iterate allocOk bytes = .error .MEMALLOC ∨
      iterate allocOk bytes = .error .EMPTY ∨
      iterate allocOk bytes = .error .UTF8_ERROR ∨
      iterate allocOk bytes = .error .UNESCAPED_CHARS ∨
      iterate allocOk bytes = .error .UNCLOSED_STRING) ∧
    (allocOk = true → bytes.all isWs = true → iterate allocOk bytes = .error .EMPTY) := by
  constructor
  · cases allocOk with
    | false => right; left; rfl
    | true =>
      by_cases hW : bytes.all isWs = true
      · right; right; left; simp [iterate, hW]
      · by_cases hU : validUtf8 bytes = true
        · exact Or.inl ⟨{ bytes := bytes, index := structuralIndex bytes },
            by simp [iterate, hW, hU]⟩
        · right; right; right; left
          simp [iterate, hW, hU]
  · intro h1 h2
    subst h1
    simp [iterate, h2]

/-- Witness for C2 at a concrete all-whitespace input. -/
theorem claim_C2_witness : iterate true [0x20, 0x09] = .error .EMPTY :=
  (claim_C2_iterate_error_set [0x20, 0x09] true).2 rfl (by decide)

/-- C3: the per-document result sequence of iterate_many is the same with
the background lookahead worker enabled as with it disabled, for every
parser state, input and batch size; the threaded flag never changes
output order or error content. -/
theorem claim_C3_lookahead_equivalence (p : Parser) (allocOk : Bool) (docs : List RawDoc)
    (bs : Nat) :
    iterate_many { p with threaded := true } allocOk docs bs =
      iterate_many { p with threaded := false } allocOk docs bs := by
  have h : streamOutput true docs (effectiveBatchSize bs) =
      streamOutput false docs (effectiveBatchSize bs) := by
    simp [streamOutput, lookRun_none_eq_seqRun]
  simp [iterate_many, h]

/-- C4: validation is interleaved with traversal: iterate can succeed on
an input containing a truncated string (concretely, on the bytes of a
brace, a key and an unclosed value string); materializing any truncated
string reports UNCLOSED_STRING; and a traversal that visits only
well-formed strings reports no error at all. -/
theorem claim_C4_lazy_validation :
    (∃ d, iterate true [0x7B, 0x22, 0x61, 0x22, 0x3A, 0x22, 0x78, 0x79, 0x7A] = .ok d ∧
      truncatedStringAt d.bytes 5) ∧
    (∀ (bytes : List Nat) (pos : Nat), truncatedStringAt bytes pos →
      readStringAt bytes pos = .error .UNCLOSED_STRING) ∧
    (∀ (bytes : List Nat) (ps : List Nat),
      (∀ p ∈ ps, wellFormedStringAt bytes p) →
      ∀ r ∈ runTraversal bytes ps, ∃ s, r = .ok s) := by
  refine ⟨⟨⟨[0x7B, 0x22, 0x61, 0x22, 0x3A, 0x22, 0x78, 0x79, 0x7A],
      structuralIndex [0x7B, 0x22, 0x61, 0x22, 0x3A, 0x22, 0x78, 0x79, 0x7A]⟩,
      rfl, rfl, rfl⟩, ?_, ?_⟩
  · rintro bytes pos ⟨h1, h2⟩
    unfold readStringAt
    rw [h1]
    simp [noClose_scanString _ h2]
  · intro bytes ps hwf r hr
    simp only [runTraversal, List.mem_map] at hr
    obtain ⟨p, hp, hpr⟩ := hr
    obtain ⟨h1, h2⟩ := hwf p hp
    obtain ⟨s, hs⟩ := cleanClose_scanString _ h2
    refine ⟨s, ?_⟩
    rw [← hpr]
    unfold readStringAt
    rw [h1]
    simp [hs]

/-- Witness for C4 at a concrete truncated string and a concrete
traversal. -/
theorem claim_C4_witness :
    readStringAt [0x22, 0x78] 0 = .error .UNCLOSED_STRING ∧
    (∀ r ∈ runTraversal [0x22, 0x61, 0x22] [0], ∃ s, r = .ok s) :=
  ⟨claim_C4_lazy_validation.2.1 [0x22, 0x78] 0 ⟨rfl, rfl⟩,
    claim_C4_lazy_validation.2.2 [0x22, 0x61, 0x22] [0]
      (by intro p hp; simp at hp; subst hp; exact ⟨rfl, rfl⟩)⟩

/-- C5: on a nonempty input, iterate_many fails with CAPACITY when the
parser lacks capacity and the batch size exceeds max_capacity, and with
MEMALLOC when the parser lacks capacity, the batch size is within
max_capacity, and allocation fails; on success, a document larger than
the batch size produces a CAPACITY error at that document's own position
in the stream, while every other document, before or after it, still
yields its own result. -/
theorem claim_C5_iterate_many_errors (p : Parser) (allocOk : Bool) (docs : List RawDoc)
    (bs : Nat) (hne : docs ≠ []) :
    (p.capacity < effectiveBatchSize bs → p.maxCapacity < effectiveBatchSize bs →
      iterate_many p allocOk docs bs = .error .CAPACITY) ∧
    (p.capacity < effectiveBatchSize bs → effectiveBatchSize bs ≤ p.maxCapacity →
      allocOk = false → iterate_many p allocOk docs bs = .error .MEMALLOC) ∧
    (∀ out, iterate_many p allocOk docs bs = .ok out →
      out.length = docs.length ∧
      (∀ (i : Nat) (d : RawDoc), docs[i]? = some d → effectiveBatchSize bs < d.size →
        out[i]? = some (.error .CAPACITY)) ∧
      (∀ (i : Nat) (d : RawDoc), docs[i]? = some d → d.size ≤ effectiveBatchSize bs →
        out[i]? = some d.result)) := by
  have hnem : docs.isEmpty = false := by
    cases docs with
    | nil => exact absurd rfl hne
    | cons a l => rfl
  refine ⟨?_, ?_, ?_⟩
  · intro h1 h2
    simp [iterate_many, hnem, h1, h2]
  · intro h1 h2 h3
    subst h3
    simp [iterate_many, hnem, h1, Nat.not_lt.mpr h2]
  · intro out hout
    have hmap := iterate_many_ok p allocOk docs bs out hout
    subst hmap
    refine ⟨List.length_map _ _, ?_, ?_⟩
    · intro i d hd hover
      rw [List.getElem?_map, hd]
      simp [perDocResult, hover]
    · intro i d hd hfit
      rw [List.getElem?_map, hd]
      simp [perDocResult, Nat.not_lt.mpr hfit]

/-- Witness for C5 at concrete parsers, documents and batch sizes. -/
theorem claim_C5_witness :
    iterate_many ⟨0, 0, 1024, true⟩ true [⟨1, .ok ()⟩] 100 = .error .CAPACITY ∧
    iterate_many ⟨0, 1000, 1024, true⟩ false [⟨1, .ok ()⟩] 100 = .error .MEMALLOC ∧
    ([Except.error .CAPACITY, Except.ok ()] :
      List (Except error_code Unit))[0]? = some (.error .CAPACITY) ∧
    ([Except.error .CAPACITY, Except.ok ()] :
      List (Except error_code Unit))[1]? = some (Except.ok ()) :=
  have h3 := (claim_C5_iterate_many_errors ⟨100, 1000, 1024, true⟩ true
    [⟨2000, .ok ()⟩, ⟨1, .ok ()⟩] 100 (by simp)).2.2
    [Except.error .CAPACITY, Except.ok ()] rfl
  ⟨(claim_C5_iterate_many_errors ⟨0, 0, 1024, true⟩ true [⟨1, .ok ()⟩] 100 (by simp)).1
      (by decide) (by decide),
    (claim_C5_iterate_many_errors ⟨0, 1000, 1024, true⟩ false [⟨1, .ok ()⟩] 100 (by simp)).2.1
      (by decide) (by decide) rfl,
    h3.2.1 0 ⟨2000, .ok ()⟩ rfl (by decide),
    h3.2.2 1 ⟨1, .ok ()⟩ rfl (by decide)⟩

/-- C6: an empty input buffer makes iterate_many succeed with a stream of
zero documents, never an EMPTY or any other error, whatever the parser
state and batch size. -/
theorem claim_C6_empty_input (p : Parser) (allocOk : Bool) (bs : Nat) :
    iterate_many p allocOk [] bs = .ok [] := rfl

/-- C7: batching partitions the input documents exactly, in order, so no
document ever spans a batch boundary; every batch is at most the batch
size except a lone oversized document; and the stream yields one result
per document, strictly in input order. -/
theorem claim_C7_input_order (docs : List RawDoc) (bs : Nat) (th : Bool) :
    (batching docs bs).flatten = docs ∧
    (∀ b ∈ batching docs bs,
      (b.map RawDoc.size).sum ≤ bs ∨ ∃ d, b = [d] ∧ bs < d.size) ∧
    streamOutput th docs bs = docs.map (perDocResult bs) := by
  refine ⟨?_, ?_, streamOutput_eq_map th docs bs⟩
  · have h := batchingAux_flatten bs docs bs []
    simpa [batching] using h
  · intro b hb
    exact batchingAux_size_bound bs docs bs [] (by simp) b hb

/-- Witness for C7 at a concrete document list and batch size. -/
theorem claim_C7_witness :
    (batching [⟨3, .ok ()⟩, ⟨4, .ok ()⟩, ⟨5, .ok ()⟩] 7).flatten =
      [⟨3, .ok ()⟩, ⟨4, .ok ()⟩, ⟨5, .ok ()⟩] ∧
    ((([⟨3, .ok ()⟩, ⟨4, .ok ()⟩] : List RawDoc).map RawDoc.size).sum ≤ 7 ∨
      ∃ d, ([⟨3, .ok ()⟩, ⟨4, .ok ()⟩] : List RawDoc) = [d] ∧ 7 < d.size) ∧
    streamOutput true [⟨3, .ok ()⟩, ⟨4, .ok ()⟩, ⟨5, .ok ()⟩] 7 =
      ([⟨3, .ok ()⟩, ⟨4, .ok ()⟩, ⟨5, .ok ()⟩] : List RawDoc).map (perDocResult 7) :=
  ⟨(claim_C7_input_order [⟨3, .ok ()⟩, ⟨4, .ok ()⟩, ⟨5, .ok ()⟩] 7 true).1,
    (claim_C7_input_order [⟨3, .ok ()⟩, ⟨4, .ok ()⟩, ⟨5, .ok ()⟩] 7 true).2.1
      [⟨3, .ok ()⟩, ⟨4, .ok ()⟩] (List.mem_cons_self _ _),
    (claim_C7_input_order [⟨3, .ok ()⟩, ⟨4, .ok ()⟩, ⟨5, .ok ()⟩] 7 true).2.2⟩

/-- C8: the default batch size of iterate_many is exactly 1000000 bytes
(calls without an explicit batch_size use DEFAULT_BATCH_SIZE), and the
minimum permitted batch size floor is exactly 32 bytes: the effective
batch size never drops below MINIMAL_BATCH_SIZE and equals the request
whenever the request is at least the floor. -/
theorem claim_C8_batch_size_constants :
    DEFAULT_BATCH_SIZE = 1000000 ∧ MINIMAL_BATCH_SIZE = 32 ∧
    (∀ (p : Parser) (allocOk : Bool) (docs : List RawDoc),
      iterate_many p allocOk docs = iterate_many p allocOk docs DEFAULT_BATCH_SIZE) ∧
    (∀ bs : Nat, MINIMAL_BATCH_SIZE ≤ effectiveBatchSize bs ∧
      (MINIMAL_BATCH_SIZE ≤ bs → effectiveBatchSize bs = bs)) := by
  refine ⟨rfl, rfl, fun _ _ _ => rfl, fun bs => ⟨le_max_right _ _, fun h => max_eq_left h⟩⟩

/-- Witness for C8 at a concrete batch size above the floor. -/
theorem claim_C8_witness : MINIMAL_BATCH_SIZE ≤ 50 ∧ effectiveBatchSize 50 = 50 :=
  ⟨by decide, (claim_C8_batch_size_constants.2.2.2 50).2 (by decide)⟩

/-- C9: a parser constructed with no arguments has max_capacity equal to
SIMDJSON_MAXSIZE_BYTES and capacity equal to zero. -/
theorem claim_C9_default_construction :
    (Parser.new).maxCapacity = SIMDJSON_MAXSIZE_BYTES ∧ (Parser.new).capacity = 0 :=
  ⟨rfl, rfl⟩

/-- C10 counterexample: the claim that every overload accepting a
temporary std::string, padded_string or padded_string_view is deleted is
false for padded_string_view: iterate takes padded_string_view by value,
that overload is not deleted, and a call passing a temporary
padded_string_view is well formed. -/
theorem claim_C10_counterexample :
    rvalueCallOk iterateOverloads .paddedStringView = true ∧
    (iterateOverloads.filter (fun o => o.ty = ArgType.paddedStringView)).all
      (fun o => !o.deleted) = true := by
  decide

/-- C10 as amended: the overloads of iterate and iterate_many taking a
temporary (rvalue) std::string or padded_string are deleted, so such
calls are ill formed and an owning buffer must be caller-owned; but
padded_string_view, a non-owning view, is taken by value and a temporary
view is accepted. -/
theorem claim_C10_deleted_rvalue_overloads :
    rvalueCallOk iterateOverloads .stdString = false ∧
    rvalueCallOk iterateOverloads .paddedString = false ∧
    rvalueCallOk iterateManyOverloads .stdString = false ∧
    rvalueCallOk iterateManyOverloads .paddedString = false ∧
    rvalueCallOk iterateOverloads .paddedStringView = true := by
  decide

end Simdjson
